import Mathlib

set_option maxRecDepth 4000

/-!
Shallow embedding of `PostAnalyzer/selection.h` from the CMS open-data
ttbar dilepton validation analysis.

The header defines two per-object quality predicates (`SelectEl`,
`SelectMu`) and three best-pair selectors (`SelectDilepEMu`,
`SelectDilepEE`, `SelectDilepMuMu`) that scan all candidate pairs of the
current event and keep the pair with the highest summed transverse
momentum among those passing charge, quality and invariant-mass cuts.

Modelling choices:
* `double` values are modelled as exact rationals `ℚ`.
* The event record `ZTree` is declared in `tree.h`, which is not part of
  the analysed sources; its fields are reconstructed from the accesses in
  `selection.h` and the spec's data model.  Hit-count attributes are
  modelled as natural numbers (they are counts per the data model).
* `TLorentzVector` is an external ROOT collaborator; the selectors only
  use construction from (pt, eta, phi, m), vector addition, the invariant
  mass `M()` and the transverse momentum `Pt()`.  The embedding is
  parametric in a structure `LVOps` packaging those four operations, so
  every theorem about the selectors' control flow holds for any
  implementation of the four-vector arithmetic.
* The in/out arguments `vecLepM`, `vecLepP`, `maxPtDiLep` are bundled
  into a state record `DilepState` threaded through the loops, which are
  rendered as `List.foldl` over the index ranges of the C++ `for` loops.
-/

/-- Modelled from the spec: the per-event candidate arrays of `tree.h`
(declared outside the analysed sources).  Only the fields read by
`selection.h` are modelled; numeric attributes are exact rationals and
hit counts are natural numbers ("number of missing hits", "number of
valid tracker hits", "number of valid pixel hits" per the data model). -/
structure ZTree where
  Nel : ℕ
  elPt : ℕ → ℚ
  elEta : ℕ → ℚ
  elPhi : ℕ → ℚ
  elIso03 : ℕ → ℚ
  elMissHits : ℕ → ℕ
  Nmu : ℕ
  muPt : ℕ → ℚ
  muEta : ℕ → ℚ
  muPhi : ℕ → ℚ
  muIso03 : ℕ → ℚ
  muHitsValid : ℕ → ℕ
  muHitsPixel : ℕ → ℕ
  muDistPV0 : ℕ → ℚ
  muDistPVz : ℕ → ℚ
  muTrackChi2NDOF : ℕ → ℚ

/-- Electron mass constant (`const double massEl = 0.000511;`). -/
def massEl : ℚ := 0.000511

/-- Muon mass constant (`const double massMu = 0.105658;`). -/
def massMu : ℚ := 0.105658

/-- The four-vector operations of the external `TLorentzVector`
collaborator that `selection.h` uses: construction via
`SetPtEtaPhiM(pt, eta, phi, m)`, addition, invariant mass `M()` and
transverse momentum `Pt()`.  Their numeric implementation lives in ROOT,
outside this core, so the selectors are parametric in them. -/
structure LVOps (V : Type) where
  SetPtEtaPhiM : ℚ → ℚ → ℚ → ℚ → V
  add : V → V → V
  M : V → ℚ
  Pt : V → ℚ

/-- Embedding of `bool SelectEl(const ZTree* preselTree, const int el)`:
cut-based electron quality selection, translated guard by guard. -/
def SelectEl (t : ZTree) (el : ℕ) : Bool :=
  if |t.elPt el| < 20.0 then false
  else if |t.elEta el| > 2.4 then false
  else if t.elIso03 el > 0.17 then false
  else if t.elMissHits el > 0 then false
  else true

/-- Embedding of `bool SelectMu(const ZTree* preselTree, const int mu)`:
cut-based muon quality selection, translated guard by guard. -/
def SelectMu (t : ZTree) (mu : ℕ) : Bool :=
  if |t.muPt mu| < 20.0 then false
  else if |t.muEta mu| > 2.4 then false
  else if t.muIso03 mu > 0.20 then false
  else if t.muHitsValid mu < 12 ∨ t.muHitsPixel mu < 2 then false
  else if t.muDistPV0 mu > 0.02 ∨ t.muDistPVz mu > 0.5 ∨
          t.muTrackChi2NDOF mu > 10 then false
  else true

/-- The four-vector `thisEl` built for electron `el`:
`thisEl.SetPtEtaPhiM(TMath::Abs(elPt[el]), elEta[el], elPhi[el], massEl)`. -/
def elVec {V : Type} (ops : LVOps V) (t : ZTree) (el : ℕ) : V :=
  ops.SetPtEtaPhiM |t.elPt el| (t.elEta el) (t.elPhi el) massEl

/-- The four-vector `thisMu` built for muon `mu`:
`thisMu.SetPtEtaPhiM(TMath::Abs(muPt[mu]), muEta[mu], muPhi[mu], massMu)`. -/
def muVec {V : Type} (ops : LVOps V) (t : ZTree) (mu : ℕ) : V :=
  ops.SetPtEtaPhiM |t.muPt mu| (t.muEta mu) (t.muPhi mu) massMu

/-- The three in/out arguments of each pair selector:
`TLorentzVector& vecLepM`, `TLorentzVector& vecLepP`, `double& maxPtDiLep`. -/
structure DilepState (V : Type) where
  vecLepM : V
  vecLepP : V
  maxPtDiLep : ℚ
  deriving DecidableEq

/-- Body of the inner muon loop of `SelectDilepEMu` for a fixed electron
`el` with already-built four-vector `thisEl`. -/
def emuStep {V : Type} (ops : LVOps V) (t : ZTree) (el : ℕ) (thisEl : V)
    (s : DilepState V) (mu : ℕ) : DilepState V :=
  if t.elPt el * t.muPt mu > 0 then s
  else if !(SelectMu t mu) then s
  else
    let thisMu := muVec ops t mu
    let vecDiLep := ops.add thisEl thisMu
    if ops.M vecDiLep < 12.0 then s
    else
      let sumPt := ops.Pt thisMu + ops.Pt thisEl
      if sumPt < s.maxPtDiLep then s
      else
        { vecLepM := if t.elPt el < 0 then thisEl else thisMu
          vecLepP := if t.elPt el < 0 then thisMu else thisEl
          maxPtDiLep := sumPt }

/-- Embedding of `void SelectDilepEMu(...)`: scan all (electron, muon) combinations and
keep the valid pair with the highest summed transverse momentum. -/
def SelectDilepEMu {V : Type} (ops : LVOps V) (t : ZTree)
    (s : DilepState V) : DilepState V :=
  (List.range t.Nel).foldl
    (fun s el =>
      if !(SelectEl t el) then s
      else (List.range t.Nmu).foldl (emuStep ops t el (elVec ops t el)) s)
    s

/-- Body of the inner loop of `SelectDilepEE` for a fixed first electron
`el1` with already-built four-vector `thisEl1`. -/
def eeStep {V : Type} (ops : LVOps V) (t : ZTree) (el1 : ℕ) (thisEl1 : V)
    (s : DilepState V) (el2 : ℕ) : DilepState V :=
  if t.elPt el1 * t.elPt el2 > 0 then s
  else if !(SelectEl t el2) then s
  else
    let thisEl2 := elVec ops t el2
    let vecDiLep := ops.add thisEl1 thisEl2
    if ops.M vecDiLep < 12.0 then s
    else if ops.M vecDiLep > 76.0 ∧ ops.M vecDiLep < 106.0 then s
    else
      let sumPt := ops.Pt thisEl1 + ops.Pt thisEl2
      if sumPt < s.maxPtDiLep then s
      else
        { vecLepM := if t.elPt el1 < 0 then thisEl1 else thisEl2
          vecLepP := if t.elPt el1 < 0 then thisEl2 else thisEl1
          maxPtDiLep := sumPt }

/-- Embedding of `void SelectDilepEE(...)`: scan all electron pairs `el1 < el2` and
keep the valid pair with the highest summed transverse momentum. -/
def SelectDilepEE {V : Type} (ops : LVOps V) (t : ZTree)
    (s : DilepState V) : DilepState V :=
  (List.range t.Nel).foldl
    (fun s el1 =>
      if !(SelectEl t el1) then s
      else (List.range' (el1 + 1) (t.Nel - (el1 + 1))).foldl
        (eeStep ops t el1 (elVec ops t el1)) s)
    s

/-- Body of the inner loop of `SelectDilepMuMu` for a fixed first muon
`mu1` with already-built four-vector `thisMu1`. -/
def mumuStep {V : Type} (ops : LVOps V) (t : ZTree) (mu1 : ℕ) (thisMu1 : V)
    (s : DilepState V) (mu2 : ℕ) : DilepState V :=
  if t.muPt mu1 * t.muPt mu2 > 0 then s
  else if !(SelectMu t mu2) then s
  else
    let thisMu2 := muVec ops t mu2
    let vecDiLep := ops.add thisMu1 thisMu2
    if ops.M vecDiLep < 12.0 then s
    else if ops.M vecDiLep > 76.0 ∧ ops.M vecDiLep < 106.0 then s
    else
      let sumPt := ops.Pt thisMu1 + ops.Pt thisMu2
      if sumPt < s.maxPtDiLep then s
      else
        { vecLepM := if t.muPt mu1 < 0 then thisMu1 else thisMu2
          vecLepP := if t.muPt mu1 < 0 then thisMu2 else thisMu1
          maxPtDiLep := sumPt }

/-- Embedding of `void SelectDilepMuMu(...)`: scan all muon pairs `mu1 < mu2` and
keep the valid pair with the highest summed transverse momentum. -/
def SelectDilepMuMu {V : Type} (ops : LVOps V) (t : ZTree)
    (s : DilepState V) : DilepState V :=
  (List.range t.Nmu).foldl
    (fun s mu1 =>
      if !(SelectMu t mu1) then s
      else (List.range' (mu1 + 1) (t.Nmu - (mu1 + 1))).foldl
        (mumuStep ops t mu1 (muVec ops t mu1)) s)
    s

/-- The summed transverse momentum `thisMu.Pt() + thisEl.Pt()` of an
electron-muon pair. -/
def emuSumPt {V : Type} (ops : LVOps V) (t : ZTree) (el mu : ℕ) : ℚ :=
  ops.Pt (muVec ops t mu) + ops.Pt (elVec ops t el)

/-- The summed transverse momentum `thisEl1.Pt() + thisEl2.Pt()` of an
electron-electron pair. -/
def eeSumPt {V : Type} (ops : LVOps V) (t : ZTree) (el1 el2 : ℕ) : ℚ :=
  ops.Pt (elVec ops t el1) + ops.Pt (elVec ops t el2)

/-- The summed transverse momentum `thisMu1.Pt() + thisMu2.Pt()` of a
muon-muon pair. -/
def mumuSumPt {V : Type} (ops : LVOps V) (t : ZTree) (mu1 mu2 : ℕ) : ℚ :=
  ops.Pt (muVec ops t mu1) + ops.Pt (muVec ops t mu2)

/-- An (electron, muon) pair that passes every cut of `SelectDilepEMu`
before the best-sum comparison: in range, both quality filters, opposite
signs, and the dilepton mass floor. -/
abbrev ValidEMuPair {V : Type} (ops : LVOps V) (t : ZTree) (el mu : ℕ) : Prop :=
  el < t.Nel ∧ mu < t.Nmu ∧ SelectEl t el = true ∧ SelectMu t mu = true ∧
  ¬(t.elPt el * t.muPt mu > 0) ∧
  ¬(ops.M (ops.add (elVec ops t el) (muVec ops t mu)) < 12.0)

/-- An electron pair `el1 < el2` that passes every cut of `SelectDilepEE`
before the best-sum comparison: in range, both quality filters, opposite
signs, the mass floor and the Z-veto window. -/
abbrev ValidEEPair {V : Type} (ops : LVOps V) (t : ZTree) (el1 el2 : ℕ) : Prop :=
  el1 < el2 ∧ el2 < t.Nel ∧ SelectEl t el1 = true ∧ SelectEl t el2 = true ∧
  ¬(t.elPt el1 * t.elPt el2 > 0) ∧
  ¬(ops.M (ops.add (elVec ops t el1) (elVec ops t el2)) < 12.0) ∧
  ¬(ops.M (ops.add (elVec ops t el1) (elVec ops t el2)) > 76.0 ∧
    ops.M (ops.add (elVec ops t el1) (elVec ops t el2)) < 106.0)

/-- A muon pair `mu1 < mu2` that passes every cut of `SelectDilepMuMu`
before the best-sum comparison: in range, both quality filters, opposite
signs, the mass floor and the Z-veto window. -/
abbrev ValidMuMuPair {V : Type} (ops : LVOps V) (t : ZTree) (mu1 mu2 : ℕ) : Prop :=
  mu1 < mu2 ∧ mu2 < t.Nmu ∧ SelectMu t mu1 = true ∧ SelectMu t mu2 = true ∧
  ¬(t.muPt mu1 * t.muPt mu2 > 0) ∧
  ¬(ops.M (ops.add (muVec ops t mu1) (muVec ops t mu2)) < 12.0) ∧
  ¬(ops.M (ops.add (muVec ops t mu1) (muVec ops t mu2)) > 76.0 ∧
    ops.M (ops.add (muVec ops t mu1) (muVec ops t mu2)) < 106.0)

/-- A concrete four-vector carrier used for evaluation: the four stored
construction parameters (pt, eta, phi, m). -/
structure Vec4 where
  pt : ℚ
  eta : ℚ
  phi : ℚ
  m : ℚ
  deriving DecidableEq

/-- A concrete, exactly-computable instance of the four-vector interface:
vectors remember their construction parameters, addition is componentwise,
`Pt` returns the stored (nonnegative) transverse momentum — which agrees
exactly with `TLorentzVector::Pt()` after `SetPtEtaPhiM` — and `M` of a
componentwise sum returns the summed pt, standing in for a plausible
invariant-mass value of the pair. -/
def mockOps : LVOps Vec4 where
  SetPtEtaPhiM := fun pt eta phi m => ⟨pt, eta, phi, m⟩
  add := fun a b => ⟨a.pt + b.pt, a.eta + b.eta, a.phi + b.phi, a.m + b.m⟩
  M := fun v => v.pt
  Pt := fun v => v.pt

/-- An initial selector state with zeroed vectors and best sum 0. -/
def s0ex : DilepState Vec4 :=
  ⟨⟨0, 0, 0, 0⟩, ⟨0, 0, 0, 0⟩, 0⟩

/-- A concrete event with one negative electron (pt -30) and two positive
muons (pt 25 each, distinguished by phi): both e-mu pairs pass all cuts
and have equal summed pt 55. -/
def tieTree : ZTree where
  Nel := 1
  elPt := fun _ => -30
  elEta := fun _ => 0
  elPhi := fun _ => 0
  elIso03 := fun _ => 0
  elMissHits := fun _ => 0
  Nmu := 2
  muPt := fun _ => 25
  muEta := fun _ => 0
  muPhi := fun i => if i = 0 then 1 else 2
  muIso03 := fun _ => 0
  muHitsValid := fun _ => 12
  muHitsPixel := fun _ => 2
  muDistPV0 := fun _ => 0
  muDistPVz := fun _ => 0
  muTrackChi2NDOF := fun _ => 0

/-- A concrete event with no candidates at all. -/
def noPairTree : ZTree where
  Nel := 0
  elPt := fun _ => 0
  elEta := fun _ => 0
  elPhi := fun _ => 0
  elIso03 := fun _ => 0
  elMissHits := fun _ => 0
  Nmu := 0
  muPt := fun _ => 0
  muEta := fun _ => 0
  muPhi := fun _ => 0
  muIso03 := fun _ => 0
  muHitsValid := fun _ => 0
  muHitsPixel := fun _ => 0
  muDistPV0 := fun _ => 0
  muDistPVz := fun _ => 0
  muTrackChi2NDOF := fun _ => 0

/-- A concrete event with one electron (pt -50) and one muon (pt 40):
under `mockOps` the only e-mu pair has invariant mass 90, inside the
Z-veto window (76, 106). -/
def zWindowTree : ZTree where
  Nel := 1
  elPt := fun _ => -50
  elEta := fun _ => 0
  elPhi := fun _ => 0
  elIso03 := fun _ => 0
  elMissHits := fun _ => 0
  Nmu := 1
  muPt := fun _ => 40
  muEta := fun _ => 0
  muPhi := fun _ => 0
  muIso03 := fun _ => 0
  muHitsValid := fun _ => 12
  muHitsPixel := fun _ => 2
  muDistPV0 := fun _ => 0
  muDistPVz := fun _ => 0
  muTrackChi2NDOF := fun _ => 0

/-- A concrete event with two opposite-sign electrons (pt -50 and 40):
under `mockOps` the only e-e pair has invariant mass 90, inside the
Z-veto window (76, 106). -/
def zWindowEETree : ZTree where
  Nel := 2
  elPt := fun i => if i = 0 then -50 else 40
  elEta := fun _ => 0
  elPhi := fun _ => 0
  elIso03 := fun _ => 0
  elMissHits := fun _ => 0
  Nmu := 0
  muPt := fun _ => 0
  muEta := fun _ => 0
  muPhi := fun _ => 0
  muIso03 := fun _ => 0
  muHitsValid := fun _ => 0
  muHitsPixel := fun _ => 0
  muDistPV0 := fun _ => 0
  muDistPVz := fun _ => 0
  muTrackChi2NDOF := fun _ => 0

/-- An electron exactly at every threshold of `SelectEl`:
pt 20, |eta| 2.4, isolation 0.17, zero missing hits. -/
def elBoundaryTree : ZTree where
  Nel := 1
  elPt := fun _ => 20
  elEta := fun _ => 2.4
  elPhi := fun _ => 0
  elIso03 := fun _ => 0.17
  elMissHits := fun _ => 0
  Nmu := 0
  muPt := fun _ => 0
  muEta := fun _ => 0
  muPhi := fun _ => 0
  muIso03 := fun _ => 0
  muHitsValid := fun _ => 0
  muHitsPixel := fun _ => 0
  muDistPV0 := fun _ => 0
  muDistPVz := fun _ => 0
  muTrackChi2NDOF := fun _ => 0

/-- A muon exactly at every threshold of `SelectMu`: pt 20, |eta| 2.4,
isolation 0.20, 12 tracker hits, 2 pixel hits, impact parameters 0.02
and 0.5, chi2/dof 10. -/
def muBoundaryTree : ZTree where
  Nel := 0
  elPt := fun _ => 0
  elEta := fun _ => 0
  elPhi := fun _ => 0
  elIso03 := fun _ => 0
  elMissHits := fun _ => 0
  Nmu := 1
  muPt := fun _ => 20
  muEta := fun _ => -2.4
  muPhi := fun _ => 0
  muIso03 := fun _ => 0.20
  muHitsValid := fun _ => 12
  muHitsPixel := fun _ => 2
  muDistPV0 := fun _ => 0.02
  muDistPVz := fun _ => 0.5
  muTrackChi2NDOF := fun _ => 10

/-- A selector state whose best-sum accumulator already holds 55, used to
exercise the tie case of the best-sum comparison. -/
def s55ex : DilepState Vec4 :=
  ⟨⟨0, 0, 0, 0⟩, ⟨0, 0, 0, 0⟩, 55⟩

theorem selectEl_eq_true_iff (t : ZTree) (el : ℕ) :
    SelectEl t el = true ↔
      20.0 ≤ |t.elPt el| ∧ |t.elEta el| ≤ 2.4 ∧ t.elIso03 el ≤ 0.17 ∧
        t.elMissHits el = 0 := by
  unfold SelectEl
  split_ifs with h1 h2 h3 h4
  · simp only [false_iff]; rintro ⟨c1, -, -, -⟩; exact absurd c1 (not_le.mpr h1)
  · simp only [false_iff]; rintro ⟨-, c2, -, -⟩; exact absurd h2 (not_lt.mpr c2)
  · simp only [false_iff]; rintro ⟨-, -, c3, -⟩; exact absurd h3 (not_lt.mpr c3)
  · simp only [false_iff]; rintro ⟨-, -, -, c4⟩; omega
  · simp only [true_iff]
    exact ⟨not_lt.mp h1, not_lt.mp h2, not_lt.mp h3, by omega⟩

theorem selectMu_eq_true_iff (t : ZTree) (mu : ℕ) :
    SelectMu t mu = true ↔
      20.0 ≤ |t.muPt mu| ∧ |t.muEta mu| ≤ 2.4 ∧ t.muIso03 mu ≤ 0.20 ∧
        12 ≤ t.muHitsValid mu ∧ 2 ≤ t.muHitsPixel mu ∧
        t.muDistPV0 mu ≤ 0.02 ∧ t.muDistPVz mu ≤ 0.5 ∧
        t.muTrackChi2NDOF mu ≤ 10 := by
  unfold SelectMu
  split_ifs with h1 h2 h3 h4 h5
  · simp only [false_iff]; rintro ⟨c1, -⟩; exact absurd c1 (not_le.mpr h1)
  · simp only [false_iff]; rintro ⟨-, c2, -⟩; exact absurd h2 (not_lt.mpr c2)
  · simp only [false_iff]; rintro ⟨-, -, c3, -⟩; exact absurd h3 (not_lt.mpr c3)
  · simp only [false_iff]; rintro ⟨-, -, -, c4, c5, -⟩
    rcases h4 with h | h <;> omega
  · simp only [false_iff]; rintro ⟨-, -, -, -, -, c6, c7, c8⟩
    rcases h5 with h | h | h
    · exact absurd h (not_lt.mpr c6)
    · exact absurd h (not_lt.mpr c7)
    · exact absurd h (not_lt.mpr c8)
  · simp only [true_iff]
    push_neg at h4 h5
    exact ⟨not_lt.mp h1, not_lt.mp h2, not_lt.mp h3, h4.1, h4.2,
      h5.1, h5.2.1, h5.2.2⟩

/-- Claim C8: `SelectEl` returns true iff all of |pt| ≥ 20.0, |eta| ≤ 2.4,
cone-0.3 isolation ≤ 0.17 and zero missing hits; and a candidate sitting
exactly at every threshold (pt 20.0, |eta| 2.4, iso 0.17, zero missing
hits) passes. -/
theorem SelectEl_cuts_characterisation :
    (∀ (t : ZTree) (el : ℕ),
        SelectEl t el = true ↔
          20.0 ≤ |t.elPt el| ∧ |t.elEta el| ≤ 2.4 ∧ t.elIso03 el ≤ 0.17 ∧
            t.elMissHits el = 0) ∧
      SelectEl elBoundaryTree 0 = true :=
  ⟨selectEl_eq_true_iff, by norm_num [SelectEl, elBoundaryTree, abs_le]⟩

/-- Claim C9: `SelectMu` returns true iff all of |pt| ≥ 20.0, |eta| ≤ 2.4,
cone-0.3 isolation ≤ 0.20, tracker hits ≥ 12, pixel hits ≥ 2, transverse
impact parameter ≤ 0.02, longitudinal impact parameter ≤ 0.5 and track
chi2/dof ≤ 10; and a candidate sitting exactly at every threshold
passes. -/
theorem SelectMu_cuts_characterisation :
    (∀ (t : ZTree) (mu : ℕ),
        SelectMu t mu = true ↔
          20.0 ≤ |t.muPt mu| ∧ |t.muEta mu| ≤ 2.4 ∧ t.muIso03 mu ≤ 0.20 ∧
            12 ≤ t.muHitsValid mu ∧ 2 ≤ t.muHitsPixel mu ∧
            t.muDistPV0 mu ≤ 0.02 ∧ t.muDistPVz mu ≤ 0.5 ∧
            t.muTrackChi2NDOF mu ≤ 10) ∧
      SelectMu muBoundaryTree 0 = true :=
  ⟨selectMu_eq_true_iff, by norm_num [SelectMu, muBoundaryTree, abs_le]⟩

theorem emuStep_maxPt_le {V : Type} (ops : LVOps V) (t : ZTree) (el : ℕ)
    (e : V) (s : DilepState V) (mu : ℕ) :
    s.maxPtDiLep ≤ (emuStep ops t el e s mu).maxPtDiLep := by
  simp only [emuStep]
  split_ifs with h1 h2 h3 h4 h5 <;>
    first | exact le_rfl | exact le_of_not_lt h4

theorem eeStep_maxPt_le {V : Type} (ops : LVOps V) (t : ZTree) (el1 : ℕ)
    (e : V) (s : DilepState V) (el2 : ℕ) :
    s.maxPtDiLep ≤ (eeStep ops t el1 e s el2).maxPtDiLep := by
  simp only [eeStep]
  split_ifs with h1 h2 h3 h4 h5 h6 <;>
    first | exact le_rfl | exact le_of_not_lt h5

theorem mumuStep_maxPt_le {V : Type} (ops : LVOps V) (t : ZTree) (mu1 : ℕ)
    (e : V) (s : DilepState V) (mu2 : ℕ) :
    s.maxPtDiLep ≤ (mumuStep ops t mu1 e s mu2).maxPtDiLep := by
  simp only [mumuStep]
  split_ifs with h1 h2 h3 h4 h5 h6 <;>
    first | exact le_rfl | exact le_of_not_lt h5

theorem foldl_maxPt_le {V : Type} (f : DilepState V → ℕ → DilepState V)
    (hf : ∀ s i, s.maxPtDiLep ≤ (f s i).maxPtDiLep) :
    ∀ (l : List ℕ) (s : DilepState V),
      s.maxPtDiLep ≤ (l.foldl f s).maxPtDiLep := by
  intro l
  induction l with
  | nil => intro s; exact le_rfl
  | cons a as ih => intro s; exact le_trans (hf s a) (ih (f s a))

theorem foldl_maxPt_reaches {V : Type} (f : DilepState V → ℕ → DilepState V)
    (hf : ∀ s i, s.maxPtDiLep ≤ (f s i).maxPtDiLep) (q : ℚ) (x : ℕ)
    (hx : ∀ s, q ≤ (f s x).maxPtDiLep) :
    ∀ (l : List ℕ), x ∈ l → ∀ s : DilepState V,
      q ≤ (l.foldl f s).maxPtDiLep := by
  intro l
  induction l with
  | nil => intro h; exact absurd h (List.not_mem_nil x)
  | cons a as ih =>
    intro h s
    rcases List.mem_cons.mp h with rfl | h2
    · exact le_trans (hx s) (foldl_maxPt_le f hf as (f s x))
    · exact ih h2 (f s a)

theorem foldl_eq_self {V : Type} (f : DilepState V → ℕ → DilepState V) :
    ∀ (l : List ℕ), (∀ s i, i ∈ l → f s i = s) →
      ∀ s : DilepState V, l.foldl f s = s := by
  intro l
  induction l with
  | nil => intro _ _; rfl
  | cons a as ih =>
    intro h s
    rw [List.foldl_cons, h s a (List.mem_cons_self a as)]
    exact ih (fun s i hi => h s i (List.mem_cons_of_mem a hi)) s

theorem foldl_maxPt_cases {V : Type} (f : DilepState V → ℕ → DilepState V)
    (P : ℚ → Prop) :
    ∀ (l : List ℕ),
      (∀ s i, i ∈ l →
        (f s i).maxPtDiLep = s.maxPtDiLep ∨ P ((f s i).maxPtDiLep)) →
      ∀ s : DilepState V,
        (l.foldl f s).maxPtDiLep = s.maxPtDiLep ∨
          P ((l.foldl f s).maxPtDiLep) := by
  intro l
  induction l with
  | nil => intro _ s; exact Or.inl rfl
  | cons a as ih =>
    intro h s
    rw [List.foldl_cons]
    rcases ih (fun s i hi => h s i (List.mem_cons_of_mem a hi)) (f s a)
      with h1 | h1
    · rcases h s a (List.mem_cons_self a as) with h2 | h2
      · exact Or.inl (h1.trans h2)
      · exact Or.inr (by rw [h1]; exact h2)
    · exact Or.inr h1

/-- Claim C6: in every selector variant, a pair whose two candidates'
signed transverse momenta have product > 0 (same charge sign) leaves the
state untouched, i.e. is never selected; only pairs with product ≤ 0
reach the remaining cuts. -/
theorem same_sign_pair_never_selected {V : Type} (ops : LVOps V) (t : ZTree) :
    (∀ el e s mu, t.elPt el * t.muPt mu > 0 →
        emuStep ops t el e s mu = s) ∧
    (∀ el1 e s el2, t.elPt el1 * t.elPt el2 > 0 →
        eeStep ops t el1 e s el2 = s) ∧
    (∀ mu1 e s mu2, t.muPt mu1 * t.muPt mu2 > 0 →
        mumuStep ops t mu1 e s mu2 = s) := by
  refine ⟨?_, ?_, ?_⟩
  · intro el e s mu h
    simp only [emuStep, if_pos h]
  · intro el1 e s el2 h
    simp only [eeStep, if_pos h]
  · intro mu1 e s mu2 h
    simp only [mumuStep, if_pos h]

/-- Witness for claim C6: the two same-sign muons of `tieTree`
(pt 25 and 25) are rejected by the mu-mu pair step. -/
theorem same_sign_pair_never_selected_witness :
    mumuStep mockOps tieTree 0 (muVec mockOps tieTree 0) s0ex 1 = s0ex :=
  (same_sign_pair_never_selected mockOps tieTree).2.2 0
    (muVec mockOps tieTree 0) s0ex 1 (by norm_num [tieTree])

/-- Claim C5: in every selector variant, a pair whose dilepton invariant
mass is below 12.0 GeV leaves the state untouched: it is rejected before
the best-sum comparison, so every pair that updates the output has
invariant mass ≥ 12.0 GeV. -/
theorem mass_floor_rejects {V : Type} (ops : LVOps V) (t : ZTree) :
    (∀ el e s mu, ops.M (ops.add e (muVec ops t mu)) < 12.0 →
        emuStep ops t el e s mu = s) ∧
    (∀ el1 e s el2, ops.M (ops.add e (elVec ops t el2)) < 12.0 →
        eeStep ops t el1 e s el2 = s) ∧
    (∀ mu1 e s mu2, ops.M (ops.add e (muVec ops t mu2)) < 12.0 →
        mumuStep ops t mu1 e s mu2 = s) := by
  refine ⟨?_, ?_, ?_⟩
  · intro el e s mu h
    simp only [emuStep]
    split_ifs with h1 h2 <;> rfl
  · intro el1 e s el2 h
    simp only [eeStep]
    split_ifs with h1 h2 <;> rfl
  · intro mu1 e s mu2 h
    simp only [mumuStep]
    split_ifs with h1 h2 <;> rfl

/-- Witness for claim C5: a pair whose mock invariant mass is 1 < 12
leaves the state untouched. -/
theorem mass_floor_rejects_witness :
    emuStep mockOps noPairTree 0 (mockOps.SetPtEtaPhiM 1 0 0 0) s0ex 0 = s0ex :=
  (mass_floor_rejects mockOps noPairTree).1 0 (mockOps.SetPtEtaPhiM 1 0 0 0)
    s0ex 0 (by norm_num [mockOps, muVec, noPairTree, massMu])

/-- Claim C4: the same-flavor pair steps never select a pair whose
dilepton invariant mass lies strictly inside (76.0, 106.0): such a pair
leaves the state untouched.  The mixed-flavor selector applies no such
veto: on the concrete event `zWindowTree` it selects a pair whose
invariant mass 90 lies inside the window. -/
theorem z_veto_same_flavor_only {V : Type} (ops : LVOps V) (t : ZTree) :
    (∀ el1 e s el2,
        76.0 < ops.M (ops.add e (elVec ops t el2)) →
        ops.M (ops.add e (elVec ops t el2)) < 106.0 →
        eeStep ops t el1 e s el2 = s) ∧
    (∀ mu1 e s mu2,
        76.0 < ops.M (ops.add e (muVec ops t mu2)) →
        ops.M (ops.add e (muVec ops t mu2)) < 106.0 →
        mumuStep ops t mu1 e s mu2 = s) ∧
    ((SelectDilepEMu mockOps zWindowTree s0ex).maxPtDiLep = 90 ∧
      mockOps.M (mockOps.add (SelectDilepEMu mockOps zWindowTree s0ex).vecLepM
          (SelectDilepEMu mockOps zWindowTree s0ex).vecLepP) = 90 ∧
      (76.0 : ℚ) < 90 ∧ (90 : ℚ) < 106.0 ∧
      (SelectDilepEMu mockOps zWindowTree s0ex).maxPtDiLep ≠
        s0ex.maxPtDiLep) := by
  refine ⟨?_, ?_, ?_⟩
  · intro el1 e s el2 hgt hlt
    simp only [eeStep]
    split_ifs with h1 h2 h3 h4 h5 h6 <;>
      first | rfl | exact absurd ⟨hgt, hlt⟩ h4
  · intro mu1 e s mu2 hgt hlt
    simp only [mumuStep]
    split_ifs with h1 h2 h3 h4 h5 h6 <;>
      first | rfl | exact absurd ⟨hgt, hlt⟩ h4
  · have h1 : List.range zWindowTree.Nel = [0] := rfl
    have h2 : List.range zWindowTree.Nmu = [0] := rfl
    have hst : SelectDilepEMu mockOps zWindowTree s0ex =
        ⟨⟨50, 0, 0, massEl⟩, ⟨40, 0, 0, massMu⟩, 90⟩ := by
      simp only [SelectDilepEMu, h1, h2, List.foldl_cons, List.foldl_nil]
      norm_num [emuStep, SelectEl, SelectMu, elVec, muVec, mockOps,
        zWindowTree, s0ex, massEl, massMu]
    rw [hst]
    norm_num [mockOps, s0ex, massEl, massMu]

/-- Witness for claim C4: the opposite-sign electron pair of
`zWindowEETree`, of mock invariant mass 90 inside the veto window, is
rejected by the e-e pair step. -/
theorem z_veto_same_flavor_only_witness :
    eeStep mockOps zWindowEETree 0 (elVec mockOps zWindowEETree 0) s0ex 1 =
      s0ex :=
  (z_veto_same_flavor_only mockOps zWindowEETree).1 0
    (elVec mockOps zWindowEETree 0) s0ex 1
    (by norm_num [mockOps, elVec, zWindowEETree, massEl])
    (by norm_num [mockOps, elVec, zWindowEETree, massEl])

/-- Claim C3: if an event has zero pairs passing all constraints
(quality, opposite charge, mass floor and, for same flavor, the Z veto)
under a given selector variant, that selector returns its input state
unchanged: vecLepM, vecLepP and maxPtDiLep keep their pre-call values. -/
theorem no_valid_pair_leaves_state_unchanged {V : Type} (ops : LVOps V)
    (t : ZTree) (s : DilepState V) :
    ((∀ el mu, ¬ ValidEMuPair ops t el mu) →
        SelectDilepEMu ops t s = s) ∧
    ((∀ el1 el2, ¬ ValidEEPair ops t el1 el2) →
        SelectDilepEE ops t s = s) ∧
    ((∀ mu1 mu2, ¬ ValidMuMuPair ops t mu1 mu2) →
        SelectDilepMuMu ops t s = s) := by
  refine ⟨?_, ?_, ?_⟩
  · intro h
    unfold SelectDilepEMu
    refine foldl_eq_self _ _ ?_ s
    intro s1 el hel
    have helN : el < t.Nel := List.mem_range.mp hel
    rcases Bool.eq_false_or_eq_true (SelectEl t el) with hse | hse
    case inr => simp [hse]
    case inl =>
      simp only [hse, Bool.not_true, Bool.false_eq_true, if_false]
      refine foldl_eq_self _ _ ?_ s1
      intro s2 mu hmu
      have hmuN : mu < t.Nmu := List.mem_range.mp hmu
      simp only [emuStep]
      rcases lt_or_le 0 (t.elPt el * t.muPt mu) with hq | hq
      · rw [if_pos hq]
      · rw [if_neg (not_lt.mpr hq)]
        rcases Bool.eq_false_or_eq_true (SelectMu t mu) with hsm | hsm
        case inr => simp [hsm]
        case inl =>
          simp only [hsm, Bool.not_true, Bool.false_eq_true, if_false]
          rcases lt_or_le (ops.M (ops.add (elVec ops t el) (muVec ops t mu)))
              12.0 with hm | hm
          · rw [if_pos hm]
          · exact absurd
              ⟨helN, hmuN, hse, hsm, not_lt.mpr hq, not_lt.mpr hm⟩ (h el mu)
  · intro h
    unfold SelectDilepEE
    refine foldl_eq_self _ _ ?_ s
    intro s1 el1 hel1
    have helN : el1 < t.Nel := List.mem_range.mp hel1
    rcases Bool.eq_false_or_eq_true (SelectEl t el1) with hse1 | hse1
    case inr => simp [hse1]
    case inl =>
      simp only [hse1, Bool.not_true, Bool.false_eq_true, if_false]
      refine foldl_eq_self _ _ ?_ s1
      intro s2 el2 hel2
      have hmem := List.mem_range'_1.mp hel2
      have hlt : el1 < el2 := by omega
      have helN2 : el2 < t.Nel := by omega
      simp only [eeStep]
      rcases lt_or_le 0 (t.elPt el1 * t.elPt el2) with hq | hq
      · rw [if_pos hq]
      · rw [if_neg (not_lt.mpr hq)]
        rcases Bool.eq_false_or_eq_true (SelectEl t el2) with hse2 | hse2
        case inr => simp [hse2]
        case inl =>
          simp only [hse2, Bool.not_true, Bool.false_eq_true, if_false]
          rcases lt_or_le (ops.M (ops.add (elVec ops t el1) (elVec ops t el2)))
              12.0 with hm | hm
          · rw [if_pos hm]
          · rw [if_neg (not_lt.mpr hm)]
            by_cases hv :
                ops.M (ops.add (elVec ops t el1) (elVec ops t el2)) > 76.0 ∧
                ops.M (ops.add (elVec ops t el1) (elVec ops t el2)) < 106.0
            · rw [if_pos hv]
            · exact absurd
                ⟨hlt, helN2, hse1, hse2, not_lt.mpr hq, not_lt.mpr hm, hv⟩
                (h el1 el2)
  · intro h
    unfold SelectDilepMuMu
    refine foldl_eq_self _ _ ?_ s
    intro s1 mu1 hmu1
    have hmuN : mu1 < t.Nmu := List.mem_range.mp hmu1
    rcases Bool.eq_false_or_eq_true (SelectMu t mu1) with hsm1 | hsm1
    case inr => simp [hsm1]
    case inl =>
      simp only [hsm1, Bool.not_true, Bool.false_eq_true, if_false]
      refine foldl_eq_self _ _ ?_ s1
      intro s2 mu2 hmu2
      have hmem := List.mem_range'_1.mp hmu2
      have hlt : mu1 < mu2 := by omega
      have hmuN2 : mu2 < t.Nmu := by omega
      simp only [mumuStep]
      rcases lt_or_le 0 (t.muPt mu1 * t.muPt mu2) with hq | hq
      · rw [if_pos hq]
      · rw [if_neg (not_lt.mpr hq)]
        rcases Bool.eq_false_or_eq_true (SelectMu t mu2) with hsm2 | hsm2
        case inr => simp [hsm2]
        case inl =>
          simp only [hsm2, Bool.not_true, Bool.false_eq_true, if_false]
          rcases lt_or_le (ops.M (ops.add (muVec ops t mu1) (muVec ops t mu2)))
              12.0 with hm | hm
          · rw [if_pos hm]
          · rw [if_neg (not_lt.mpr hm)]
            by_cases hv :
                ops.M (ops.add (muVec ops t mu1) (muVec ops t mu2)) > 76.0 ∧
                ops.M (ops.add (muVec ops t mu1) (muVec ops t mu2)) < 106.0
            · rw [if_pos hv]
            · exact absurd
                ⟨hlt, hmuN2, hsm1, hsm2, not_lt.mpr hq, not_lt.mpr hm, hv⟩
                (h mu1 mu2)

/-- Witness for claim C3: on an event with no candidates at all, every
selector returns its input state unchanged. -/
theorem no_valid_pair_leaves_state_unchanged_witness :
    SelectDilepEMu mockOps noPairTree s0ex = s0ex :=
  (no_valid_pair_leaves_state_unchanged mockOps noPairTree s0ex).1
    (fun el _ hvalid => (Nat.not_lt_zero el hvalid.1).elim)

/-- Claim C2: on exit from each selector variant, the best-sum
accumulator maxPtDiLep is ≥ the summed transverse momentum of every
valid (quality-passing, opposite-charge, mass-constraint-satisfying)
pair of the event; in particular this holds when the caller pre-seeds
the accumulator with a sentinel below any real pair's sum. -/
theorem selected_sum_maximal {V : Type} (ops : LVOps V) (t : ZTree)
    (s : DilepState V) :
    (∀ el mu, ValidEMuPair ops t el mu →
        emuSumPt ops t el mu ≤ (SelectDilepEMu ops t s).maxPtDiLep) ∧
    (∀ el1 el2, ValidEEPair ops t el1 el2 →
        eeSumPt ops t el1 el2 ≤ (SelectDilepEE ops t s).maxPtDiLep) ∧
    (∀ mu1 mu2, ValidMuMuPair ops t mu1 mu2 →
        mumuSumPt ops t mu1 mu2 ≤ (SelectDilepMuMu ops t s).maxPtDiLep) := by
  refine ⟨?_, ?_, ?_⟩
  · rintro el mu ⟨helN, hmuN, hse, hsm, hq, hm⟩
    unfold SelectDilepEMu
    refine foldl_maxPt_reaches _ ?_ _ el ?_ (List.range t.Nel)
      (List.mem_range.mpr helN) s
    · intro s1 i
      rcases Bool.eq_false_or_eq_true (SelectEl t i) with hsi | hsi
      case inr => simp [hsi]
      case inl =>
        simp only [hsi, Bool.not_true, Bool.false_eq_true, if_false]
        exact foldl_maxPt_le _
          (fun s2 mu2 => emuStep_maxPt_le ops t i (elVec ops t i) s2 mu2)
          (List.range t.Nmu) s1
    · intro s1
      simp only [hse, Bool.not_true, Bool.false_eq_true, if_false]
      refine foldl_maxPt_reaches _
        (fun s2 mu2 => emuStep_maxPt_le ops t el (elVec ops t el) s2 mu2)
        _ mu ?_ (List.range t.Nmu) (List.mem_range.mpr hmuN) s1
      intro s2
      unfold emuSumPt
      simp only [emuStep]
      rw [if_neg hq]
      simp only [hsm, Bool.not_true, Bool.false_eq_true, if_false]
      rw [if_neg hm]
      by_cases hcmp :
          ops.Pt (muVec ops t mu) + ops.Pt (elVec ops t el) < s2.maxPtDiLep
      · rw [if_pos hcmp]; exact le_of_lt hcmp
      · rw [if_neg hcmp]
  · rintro el1 el2 ⟨hlt, helN2, hse1, hse2, hq, hm, hv⟩
    unfold SelectDilepEE
    refine foldl_maxPt_reaches _ ?_ _ el1 ?_ (List.range t.Nel)
      (List.mem_range.mpr (by omega)) s
    · intro s1 i
      rcases Bool.eq_false_or_eq_true (SelectEl t i) with hsi | hsi
      case inr => simp [hsi]
      case inl =>
        simp only [hsi, Bool.not_true, Bool.false_eq_true, if_false]
        exact foldl_maxPt_le _
          (fun s2 j => eeStep_maxPt_le ops t i (elVec ops t i) s2 j)
          (List.range' (i + 1) (t.Nel - (i + 1))) s1
    · intro s1
      simp only [hse1, Bool.not_true, Bool.false_eq_true, if_false]
      refine foldl_maxPt_reaches _
        (fun s2 j => eeStep_maxPt_le ops t el1 (elVec ops t el1) s2 j)
        _ el2 ?_ (List.range' (el1 + 1) (t.Nel - (el1 + 1)))
        (List.mem_range'_1.mpr ⟨by omega, by omega⟩) s1
      intro s2
      unfold eeSumPt
      simp only [eeStep]
      rw [if_neg hq]
      simp only [hse2, Bool.not_true, Bool.false_eq_true, if_false]
      rw [if_neg hm, if_neg hv]
      by_cases hcmp :
          ops.Pt (elVec ops t el1) + ops.Pt (elVec ops t el2) < s2.maxPtDiLep
      · rw [if_pos hcmp]; exact le_of_lt hcmp
      · rw [if_neg hcmp]
  · rintro mu1 mu2 ⟨hlt, hmuN2, hsm1, hsm2, hq, hm, hv⟩
    unfold SelectDilepMuMu
    refine foldl_maxPt_reaches _ ?_ _ mu1 ?_ (List.range t.Nmu)
      (List.mem_range.mpr (by omega)) s
    · intro s1 i
      rcases Bool.eq_false_or_eq_true (SelectMu t i) with hsi | hsi
      case inr => simp [hsi]
      case inl =>
        simp only [hsi, Bool.not_true, Bool.false_eq_true, if_false]
        exact foldl_maxPt_le _
          (fun s2 j => mumuStep_maxPt_le ops t i (muVec ops t i) s2 j)
          (List.range' (i + 1) (t.Nmu - (i + 1))) s1
    · intro s1
      simp only [hsm1, Bool.not_true, Bool.false_eq_true, if_false]
      refine foldl_maxPt_reaches _
        (fun s2 j => mumuStep_maxPt_le ops t mu1 (muVec ops t mu1) s2 j)
        _ mu2 ?_ (List.range' (mu1 + 1) (t.Nmu - (mu1 + 1)))
        (List.mem_range'_1.mpr ⟨by omega, by omega⟩) s1
      intro s2
      unfold mumuSumPt
      simp only [mumuStep]
      rw [if_neg hq]
      simp only [hsm2, Bool.not_true, Bool.false_eq_true, if_false]
      rw [if_neg hm, if_neg hv]
      by_cases hcmp :
          ops.Pt (muVec ops t mu1) + ops.Pt (muVec ops t mu2) < s2.maxPtDiLep
      · rw [if_pos hcmp]; exact le_of_lt hcmp
      · rw [if_neg hcmp]

/-- Witness for claim C2: the valid e-mu pair (0, 0) of `tieTree` has its
summed pt 55 bounded by the accumulator on exit. -/
theorem selected_sum_maximal_witness :
    emuSumPt mockOps tieTree 0 0 ≤
      (SelectDilepEMu mockOps tieTree s0ex).maxPtDiLep :=
  (selected_sum_maximal mockOps tieTree s0ex).1 0 0
    (by refine ⟨by norm_num [tieTree], by norm_num [tieTree],
      by norm_num [SelectEl, tieTree], by norm_num [SelectMu, tieTree],
      by norm_num [tieTree], ?_⟩
        norm_num [mockOps, elVec, muVec, tieTree, massEl, massMu])

/-- Claim C10: each selector variant never decreases the shared
accumulator (exit value ≥ entry value), and the exit value is either the
untouched entry value or the summed transverse momentum of some valid
pair of the event; hence the three variants can be chained over one
shared accumulator, whose final value is the maximum of the initial
sentinel and all variants' valid-pair sums (together with
`selected_sum_maximal`-style bounds). -/
theorem accumulator_never_decreases {V : Type} (ops : LVOps V) (t : ZTree)
    (s : DilepState V) :
    (s.maxPtDiLep ≤ (SelectDilepEMu ops t s).maxPtDiLep ∧
      ((SelectDilepEMu ops t s).maxPtDiLep = s.maxPtDiLep ∨
        ∃ el mu, ValidEMuPair ops t el mu ∧
          (SelectDilepEMu ops t s).maxPtDiLep = emuSumPt ops t el mu)) ∧
    (s.maxPtDiLep ≤ (SelectDilepEE ops t s).maxPtDiLep ∧
      ((SelectDilepEE ops t s).maxPtDiLep = s.maxPtDiLep ∨
        ∃ el1 el2, ValidEEPair ops t el1 el2 ∧
          (SelectDilepEE ops t s).maxPtDiLep = eeSumPt ops t el1 el2)) ∧
    (s.maxPtDiLep ≤ (SelectDilepMuMu ops t s).maxPtDiLep ∧
      ((SelectDilepMuMu ops t s).maxPtDiLep = s.maxPtDiLep ∨
        ∃ mu1 mu2, ValidMuMuPair ops t mu1 mu2 ∧
          (SelectDilepMuMu ops t s).maxPtDiLep = mumuSumPt ops t mu1 mu2)) := by
  refine ⟨⟨?_, ?_⟩, ⟨?_, ?_⟩, ⟨?_, ?_⟩⟩
  · unfold SelectDilepEMu
    refine foldl_maxPt_le _ ?_ (List.range t.Nel) s
    intro s1 i
    rcases Bool.eq_false_or_eq_true (SelectEl t i) with hsi | hsi
    case inr => simp [hsi]
    case inl =>
      simp only [hsi, Bool.not_true, Bool.false_eq_true, if_false]
      exact foldl_maxPt_le _
        (fun s2 j => emuStep_maxPt_le ops t i (elVec ops t i) s2 j)
        (List.range t.Nmu) s1
  · unfold SelectDilepEMu
    refine foldl_maxPt_cases _
      (fun q => ∃ el mu, ValidEMuPair ops t el mu ∧
        q = emuSumPt ops t el mu) (List.range t.Nel) ?_ s
    intro s1 el hel
    have helN := List.mem_range.mp hel
    rcases Bool.eq_false_or_eq_true (SelectEl t el) with hse | hse
    case inr => exact Or.inl (by simp [hse])
    case inl =>
      simp only [hse, Bool.not_true, Bool.false_eq_true, if_false]
      refine foldl_maxPt_cases _
        (fun q => ∃ el mu, ValidEMuPair ops t el mu ∧
          q = emuSumPt ops t el mu) (List.range t.Nmu) ?_ s1
      intro s2 mu hmu
      have hmuN := List.mem_range.mp hmu
      simp only [emuStep]
      rcases lt_or_le 0 (t.elPt el * t.muPt mu) with hq | hq
      · rw [if_pos hq]; exact Or.inl rfl
      · rw [if_neg (not_lt.mpr hq)]
        rcases Bool.eq_false_or_eq_true (SelectMu t mu) with hsm | hsm
        case inr => exact Or.inl (by simp [hsm])
        case inl =>
          simp only [hsm, Bool.not_true, Bool.false_eq_true, if_false]
          rcases lt_or_le (ops.M (ops.add (elVec ops t el) (muVec ops t mu)))
              12.0 with hm | hm
          · rw [if_pos hm]; exact Or.inl rfl
          · rw [if_neg (not_lt.mpr hm)]
            by_cases hcmp :
                ops.Pt (muVec ops t mu) + ops.Pt (elVec ops t el) <
                  s2.maxPtDiLep
            · rw [if_pos hcmp]; exact Or.inl rfl
            · rw [if_neg hcmp]
              exact Or.inr ⟨el, mu,
                ⟨helN, hmuN, hse, hsm, not_lt.mpr hq, not_lt.mpr hm⟩, rfl⟩
  · unfold SelectDilepEE
    refine foldl_maxPt_le _ ?_ (List.range t.Nel) s
    intro s1 i
    rcases Bool.eq_false_or_eq_true (SelectEl t i) with hsi | hsi
    case inr => simp [hsi]
    case inl =>
      simp only [hsi, Bool.not_true, Bool.false_eq_true, if_false]
      exact foldl_maxPt_le _
        (fun s2 j => eeStep_maxPt_le ops t i (elVec ops t i) s2 j)
        (List.range' (i + 1) (t.Nel - (i + 1))) s1
  · unfold SelectDilepEE
    refine foldl_maxPt_cases _
      (fun q => ∃ el1 el2, ValidEEPair ops t el1 el2 ∧
        q = eeSumPt ops t el1 el2) (List.range t.Nel) ?_ s
    intro s1 el1 hel1
    rcases Bool.eq_false_or_eq_true (SelectEl t el1) with hse1 | hse1
    case inr => exact Or.inl (by simp [hse1])
    case inl =>
      simp only [hse1, Bool.not_true, Bool.false_eq_true, if_false]
      refine foldl_maxPt_cases _
        (fun q => ∃ el1 el2, ValidEEPair ops t el1 el2 ∧
          q = eeSumPt ops t el1 el2)
        (List.range' (el1 + 1) (t.Nel - (el1 + 1))) ?_ s1
      intro s2 el2 hel2
      have hmem := List.mem_range'_1.mp hel2
      have hlt : el1 < el2 := by omega
      have helN2 : el2 < t.Nel := by omega
      simp only [eeStep]
      rcases lt_or_le 0 (t.elPt el1 * t.elPt el2) with hq | hq
      · rw [if_pos hq]; exact Or.inl rfl
      · rw [if_neg (not_lt.mpr hq)]
        rcases Bool.eq_false_or_eq_true (SelectEl t el2) with hse2 | hse2
        case inr => exact Or.inl (by simp [hse2])
        case inl =>
          simp only [hse2, Bool.not_true, Bool.false_eq_true, if_false]
          rcases lt_or_le (ops.M (ops.add (elVec ops t el1) (elVec ops t el2)))
              12.0 with hm | hm
          · rw [if_pos hm]; exact Or.inl rfl
          · rw [if_neg (not_lt.mpr hm)]
            by_cases hv :
                ops.M (ops.add (elVec ops t el1) (elVec ops t el2)) > 76.0 ∧
                ops.M (ops.add (elVec ops t el1) (elVec ops t el2)) < 106.0
            · rw [if_pos hv]; exact Or.inl rfl
            · rw [if_neg hv]
              by_cases hcmp :
                  ops.Pt (elVec ops t el1) + ops.Pt (elVec ops t el2) <
                    s2.maxPtDiLep
              · rw [if_pos hcmp]; exact Or.inl rfl
              · rw [if_neg hcmp]
                exact Or.inr ⟨el1, el2,
                  ⟨hlt, helN2, hse1, hse2, not_lt.mpr hq, not_lt.mpr hm, hv⟩,
                  rfl⟩
  · unfold SelectDilepMuMu
    refine foldl_maxPt_le _ ?_ (List.range t.Nmu) s
    intro s1 i
    rcases Bool.eq_false_or_eq_true (SelectMu t i) with hsi | hsi
    case inr => simp [hsi]
    case inl =>
      simp only [hsi, Bool.not_true, Bool.false_eq_true, if_false]
      exact foldl_maxPt_le _
        (fun s2 j => mumuStep_maxPt_le ops t i (muVec ops t i) s2 j)
        (List.range' (i + 1) (t.Nmu - (i + 1))) s1
  · unfold SelectDilepMuMu
    refine foldl_maxPt_cases _
      (fun q => ∃ mu1 mu2, ValidMuMuPair ops t mu1 mu2 ∧
        q = mumuSumPt ops t mu1 mu2) (List.range t.Nmu) ?_ s
    intro s1 mu1 hmu1
    rcases Bool.eq_false_or_eq_true (SelectMu t mu1) with hsm1 | hsm1
    case inr => exact Or.inl (by simp [hsm1])
    case inl =>
      simp only [hsm1, Bool.not_true, Bool.false_eq_true, if_false]
      refine foldl_maxPt_cases _
        (fun q => ∃ mu1 mu2, ValidMuMuPair ops t mu1 mu2 ∧
          q = mumuSumPt ops t mu1 mu2)
        (List.range' (mu1 + 1) (t.Nmu - (mu1 + 1))) ?_ s1
      intro s2 mu2 hmu2
      have hmem := List.mem_range'_1.mp hmu2
      have hlt : mu1 < mu2 := by omega
      have hmuN2 : mu2 < t.Nmu := by omega
      simp only [mumuStep]
      rcases lt_or_le 0 (t.muPt mu1 * t.muPt mu2) with hq | hq
      · rw [if_pos hq]; exact Or.inl rfl
      · rw [if_neg (not_lt.mpr hq)]
        rcases Bool.eq_false_or_eq_true (SelectMu t mu2) with hsm2 | hsm2
        case inr => exact Or.inl (by simp [hsm2])
        case inl =>
          simp only [hsm2, Bool.not_true, Bool.false_eq_true, if_false]
          rcases lt_or_le (ops.M (ops.add (muVec ops t mu1) (muVec ops t mu2)))
              12.0 with hm | hm
          · rw [if_pos hm]; exact Or.inl rfl
          · rw [if_neg (not_lt.mpr hm)]
            by_cases hv :
                ops.M (ops.add (muVec ops t mu1) (muVec ops t mu2)) > 76.0 ∧
                ops.M (ops.add (muVec ops t mu1) (muVec ops t mu2)) < 106.0
            · rw [if_pos hv]; exact Or.inl rfl
            · rw [if_neg hv]
              by_cases hcmp :
                  ops.Pt (muVec ops t mu1) + ops.Pt (muVec ops t mu2) <
                    s2.maxPtDiLep
              · rw [if_pos hcmp]; exact Or.inl rfl
              · rw [if_neg hcmp]
                exact Or.inr ⟨mu1, mu2,
                  ⟨hlt, hmuN2, hsm1, hsm2, not_lt.mpr hq, not_lt.mpr hm, hv⟩,
                  rfl⟩

theorem selectEl_pt_ne_zero (t : ZTree) (el : ℕ)
    (h : SelectEl t el = true) : t.elPt el ≠ 0 := by
  intro h0
  have hc := ((selectEl_eq_true_iff t el).mp h).1
  rw [h0] at hc
  norm_num at hc

theorem selectMu_pt_ne_zero (t : ZTree) (mu : ℕ)
    (h : SelectMu t mu = true) : t.muPt mu ≠ 0 := by
  intro h0
  have hc := ((selectMu_eq_true_iff t mu).mp h).1
  rw [h0] at hc
  norm_num at hc

/-- Claim C7: whenever a pair step updates the output (all cuts passed
and the summed pt reaches the current best), the minus slot vecLepM
receives the four-vector of the pair member whose stored signed
transverse momentum is negative, and vecLepP the other member's — even
though the code only branches on the first candidate's sign. -/
theorem minus_slot_holds_negative {V : Type} (ops : LVOps V) (t : ZTree) :
    (∀ el mu s, SelectEl t el = true → SelectMu t mu = true →
      ¬(t.elPt el * t.muPt mu > 0) →
      ¬(ops.M (ops.add (elVec ops t el) (muVec ops t mu)) < 12.0) →
      ¬(emuSumPt ops t el mu < s.maxPtDiLep) →
      ((t.elPt el < 0 ∧ 0 < t.muPt mu ∧
          (emuStep ops t el (elVec ops t el) s mu).vecLepM =
            elVec ops t el ∧
          (emuStep ops t el (elVec ops t el) s mu).vecLepP =
            muVec ops t mu) ∨
        (t.muPt mu < 0 ∧ 0 < t.elPt el ∧
          (emuStep ops t el (elVec ops t el) s mu).vecLepM =
            muVec ops t mu ∧
          (emuStep ops t el (elVec ops t el) s mu).vecLepP =
            elVec ops t el))) ∧
    (∀ el1 el2 s, SelectEl t el1 = true → SelectEl t el2 = true →
      ¬(t.elPt el1 * t.elPt el2 > 0) →
      ¬(ops.M (ops.add (elVec ops t el1) (elVec ops t el2)) < 12.0) →
      ¬(ops.M (ops.add (elVec ops t el1) (elVec ops t el2)) > 76.0 ∧
        ops.M (ops.add (elVec ops t el1) (elVec ops t el2)) < 106.0) →
      ¬(eeSumPt ops t el1 el2 < s.maxPtDiLep) →
      ((t.elPt el1 < 0 ∧ 0 < t.elPt el2 ∧
          (eeStep ops t el1 (elVec ops t el1) s el2).vecLepM =
            elVec ops t el1 ∧
          (eeStep ops t el1 (elVec ops t el1) s el2).vecLepP =
            elVec ops t el2) ∨
        (t.elPt el2 < 0 ∧ 0 < t.elPt el1 ∧
          (eeStep ops t el1 (elVec ops t el1) s el2).vecLepM =
            elVec ops t el2 ∧
          (eeStep ops t el1 (elVec ops t el1) s el2).vecLepP =
            elVec ops t el1))) ∧
    (∀ mu1 mu2 s, SelectMu t mu1 = true → SelectMu t mu2 = true →
      ¬(t.muPt mu1 * t.muPt mu2 > 0) →
      ¬(ops.M (ops.add (muVec ops t mu1) (muVec ops t mu2)) < 12.0) →
      ¬(ops.M (ops.add (muVec ops t mu1) (muVec ops t mu2)) > 76.0 ∧
        ops.M (ops.add (muVec ops t mu1) (muVec ops t mu2)) < 106.0) →
      ¬(mumuSumPt ops t mu1 mu2 < s.maxPtDiLep) →
      ((t.muPt mu1 < 0 ∧ 0 < t.muPt mu2 ∧
          (mumuStep ops t mu1 (muVec ops t mu1) s mu2).vecLepM =
            muVec ops t mu1 ∧
          (mumuStep ops t mu1 (muVec ops t mu1) s mu2).vecLepP =
            muVec ops t mu2) ∨
        (t.muPt mu2 < 0 ∧ 0 < t.muPt mu1 ∧
          (mumuStep ops t mu1 (muVec ops t mu1) s mu2).vecLepM =
            muVec ops t mu2 ∧
          (mumuStep ops t mu1 (muVec ops t mu1) s mu2).vecLepP =
            muVec ops t mu1))) := by
  refine ⟨?_, ?_, ?_⟩
  · intro el mu s hse hsm hq hm hcmp
    unfold emuSumPt at hcmp
    have hstep : emuStep ops t el (elVec ops t el) s mu =
        ⟨if t.elPt el < 0 then elVec ops t el else muVec ops t mu,
         if t.elPt el < 0 then muVec ops t mu else elVec ops t el,
         ops.Pt (muVec ops t mu) + ops.Pt (elVec ops t el)⟩ := by
      simp only [emuStep]
      rw [if_neg hq]
      simp only [hsm, Bool.not_true, Bool.false_eq_true, if_false]
      rw [if_neg hm, if_neg hcmp]
    have hprodlt : t.elPt el * t.muPt mu < 0 :=
      lt_of_le_of_ne (not_lt.mp hq)
        (mul_ne_zero (selectEl_pt_ne_zero t el hse)
          (selectMu_pt_ne_zero t mu hsm))
    rcases mul_neg_iff.mp hprodlt with ⟨hepos, hmneg⟩ | ⟨heneg, hmpos⟩
    · refine Or.inr ⟨hmneg, hepos, ?_, ?_⟩
      · rw [hstep]; exact if_neg (not_lt.mpr hepos.le)
      · rw [hstep]; exact if_neg (not_lt.mpr hepos.le)
    · refine Or.inl ⟨heneg, hmpos, ?_, ?_⟩
      · rw [hstep]; exact if_pos heneg
      · rw [hstep]; exact if_pos heneg
  · intro el1 el2 s hse1 hse2 hq hm hv hcmp
    unfold eeSumPt at hcmp
    have hstep : eeStep ops t el1 (elVec ops t el1) s el2 =
        ⟨if t.elPt el1 < 0 then elVec ops t el1 else elVec ops t el2,
         if t.elPt el1 < 0 then elVec ops t el2 else elVec ops t el1,
         ops.Pt (elVec ops t el1) + ops.Pt (elVec ops t el2)⟩ := by
      simp only [eeStep]
      rw [if_neg hq]
      simp only [hse2, Bool.not_true, Bool.false_eq_true, if_false]
      rw [if_neg hm, if_neg hv, if_neg hcmp]
    have hprodlt : t.elPt el1 * t.elPt el2 < 0 :=
      lt_of_le_of_ne (not_lt.mp hq)
        (mul_ne_zero (selectEl_pt_ne_zero t el1 hse1)
          (selectEl_pt_ne_zero t el2 hse2))
    rcases mul_neg_iff.mp hprodlt with ⟨hpos1, hneg2⟩ | ⟨hneg1, hpos2⟩
    · refine Or.inr ⟨hneg2, hpos1, ?_, ?_⟩
      · rw [hstep]; exact if_neg (not_lt.mpr hpos1.le)
      · rw [hstep]; exact if_neg (not_lt.mpr hpos1.le)
    · refine Or.inl ⟨hneg1, hpos2, ?_, ?_⟩
      · rw [hstep]; exact if_pos hneg1
      · rw [hstep]; exact if_pos hneg1
  · intro mu1 mu2 s hsm1 hsm2 hq hm hv hcmp
    unfold mumuSumPt at hcmp
    have hstep : mumuStep ops t mu1 (muVec ops t mu1) s mu2 =
        ⟨if t.muPt mu1 < 0 then muVec ops t mu1 else muVec ops t mu2,
         if t.muPt mu1 < 0 then muVec ops t mu2 else muVec ops t mu1,
         ops.Pt (muVec ops t mu1) + ops.Pt (muVec ops t mu2)⟩ := by
      simp only [mumuStep]
      rw [if_neg hq]
      simp only [hsm2, Bool.not_true, Bool.false_eq_true, if_false]
      rw [if_neg hm, if_neg hv, if_neg hcmp]
    have hprodlt : t.muPt mu1 * t.muPt mu2 < 0 :=
      lt_of_le_of_ne (not_lt.mp hq)
        (mul_ne_zero (selectMu_pt_ne_zero t mu1 hsm1)
          (selectMu_pt_ne_zero t mu2 hsm2))
    rcases mul_neg_iff.mp hprodlt with ⟨hpos1, hneg2⟩ | ⟨hneg1, hpos2⟩
    · refine Or.inr ⟨hneg2, hpos1, ?_, ?_⟩
      · rw [hstep]; exact if_neg (not_lt.mpr hpos1.le)
      · rw [hstep]; exact if_neg (not_lt.mpr hpos1.le)
    · refine Or.inl ⟨hneg1, hpos2, ?_, ?_⟩
      · rw [hstep]; exact if_pos hneg1
      · rw [hstep]; exact if_pos hneg1

/-- Witness for claim C7: the valid e-mu pair (0, 0) of `tieTree` (pt -30
electron, pt 25 muon) puts the electron's four-vector in the minus slot
and the muon's in the plus slot. -/
theorem minus_slot_holds_negative_witness :
    (tieTree.elPt 0 < 0 ∧ 0 < tieTree.muPt 0 ∧
      (emuStep mockOps tieTree 0 (elVec mockOps tieTree 0) s0ex 0).vecLepM =
        elVec mockOps tieTree 0 ∧
      (emuStep mockOps tieTree 0 (elVec mockOps tieTree 0) s0ex 0).vecLepP =
        muVec mockOps tieTree 0) ∨
    (tieTree.muPt 0 < 0 ∧ 0 < tieTree.elPt 0 ∧
      (emuStep mockOps tieTree 0 (elVec mockOps tieTree 0) s0ex 0).vecLepM =
        muVec mockOps tieTree 0 ∧
      (emuStep mockOps tieTree 0 (elVec mockOps tieTree 0) s0ex 0).vecLepP =
        elVec mockOps tieTree 0) :=
  (minus_slot_holds_negative mockOps tieTree).1 0 0 s0ex
    (by norm_num [SelectEl, tieTree])
    (by norm_num [SelectMu, tieTree])
    (by norm_num [tieTree])
    (by norm_num [mockOps, elVec, muVec, tieTree, massEl, massMu])
    (by norm_num [emuSumPt, mockOps, elVec, muVec, tieTree, s0ex,
      massEl, massMu])

/-- Claim C1 (amended): in every selector variant, the best-sum
comparison skips exactly the pairs whose summed transverse momentum is
strictly less than the current best: a pair whose sum is below the best
leaves the state unchanged, while an otherwise-valid pair whose sum is
greater than OR EQUAL to the current best overwrites the output with its
own data — so among equal-sum valid pairs the LAST-enumerated one is
retained, not the first. -/
theorem strict_less_skips_ties_update {V : Type} (ops : LVOps V)
    (t : ZTree) :
    ((∀ el mu s, emuSumPt ops t el mu < s.maxPtDiLep →
        emuStep ops t el (elVec ops t el) s mu = s) ∧
      (∀ el mu s, ¬(t.elPt el * t.muPt mu > 0) → SelectMu t mu = true →
        ¬(ops.M (ops.add (elVec ops t el) (muVec ops t mu)) < 12.0) →
        ¬(emuSumPt ops t el mu < s.maxPtDiLep) →
        emuStep ops t el (elVec ops t el) s mu =
          ⟨if t.elPt el < 0 then elVec ops t el else muVec ops t mu,
           if t.elPt el < 0 then muVec ops t mu else elVec ops t el,
           emuSumPt ops t el mu⟩)) ∧
    ((∀ el1 el2 s, eeSumPt ops t el1 el2 < s.maxPtDiLep →
        eeStep ops t el1 (elVec ops t el1) s el2 = s) ∧
      (∀ el1 el2 s, ¬(t.elPt el1 * t.elPt el2 > 0) →
        SelectEl t el2 = true →
        ¬(ops.M (ops.add (elVec ops t el1) (elVec ops t el2)) < 12.0) →
        ¬(ops.M (ops.add (elVec ops t el1) (elVec ops t el2)) > 76.0 ∧
          ops.M (ops.add (elVec ops t el1) (elVec ops t el2)) < 106.0) →
        ¬(eeSumPt ops t el1 el2 < s.maxPtDiLep) →
        eeStep ops t el1 (elVec ops t el1) s el2 =
          ⟨if t.elPt el1 < 0 then elVec ops t el1 else elVec ops t el2,
           if t.elPt el1 < 0 then elVec ops t el2 else elVec ops t el1,
           eeSumPt ops t el1 el2⟩)) ∧
    ((∀ mu1 mu2 s, mumuSumPt ops t mu1 mu2 < s.maxPtDiLep →
        mumuStep ops t mu1 (muVec ops t mu1) s mu2 = s) ∧
      (∀ mu1 mu2 s, ¬(t.muPt mu1 * t.muPt mu2 > 0) →
        SelectMu t mu2 = true →
        ¬(ops.M (ops.add (muVec ops t mu1) (muVec ops t mu2)) < 12.0) →
        ¬(ops.M (ops.add (muVec ops t mu1) (muVec ops t mu2)) > 76.0 ∧
          ops.M (ops.add (muVec ops t mu1) (muVec ops t mu2)) < 106.0) →
        ¬(mumuSumPt ops t mu1 mu2 < s.maxPtDiLep) →
        mumuStep ops t mu1 (muVec ops t mu1) s mu2 =
          ⟨if t.muPt mu1 < 0 then muVec ops t mu1 else muVec ops t mu2,
           if t.muPt mu1 < 0 then muVec ops t mu2 else muVec ops t mu1,
           mumuSumPt ops t mu1 mu2⟩)) := by
  refine ⟨⟨?_, ?_⟩, ⟨?_, ?_⟩, ⟨?_, ?_⟩⟩
  · intro el mu s h
    unfold emuSumPt at h
    simp only [emuStep]
    split_ifs <;> rfl
  · intro el mu s hq hsm hm hcmp
    unfold emuSumPt at hcmp ⊢
    simp only [emuStep]
    rw [if_neg hq]
    simp only [hsm, Bool.not_true, Bool.false_eq_true, if_false]
    rw [if_neg hm, if_neg hcmp]
  · intro el1 el2 s h
    unfold eeSumPt at h
    simp only [eeStep]
    split_ifs <;> rfl
  · intro el1 el2 s hq hse2 hm hv hcmp
    unfold eeSumPt at hcmp ⊢
    simp only [eeStep]
    rw [if_neg hq]
    simp only [hse2, Bool.not_true, Bool.false_eq_true, if_false]
    rw [if_neg hm, if_neg hv, if_neg hcmp]
  · intro mu1 mu2 s h
    unfold mumuSumPt at h
    simp only [mumuStep]
    split_ifs <;> rfl
  · intro mu1 mu2 s hq hsm2 hm hv hcmp
    unfold mumuSumPt at hcmp ⊢
    simp only [mumuStep]
    rw [if_neg hq]
    simp only [hsm2, Bool.not_true, Bool.false_eq_true, if_false]
    rw [if_neg hm, if_neg hv, if_neg hcmp]

/-- Witness for claim C1 (amended): on `tieTree`, with the accumulator
already holding 55, the pair (el 0, mu 1) of summed pt exactly 55 (a tie)
is NOT skipped: it overwrites the output with its own vectors and sum. -/
theorem strict_less_skips_ties_update_witness :
    emuStep mockOps tieTree 0 (elVec mockOps tieTree 0) s55ex 1 =
      ⟨if tieTree.elPt 0 < 0 then elVec mockOps tieTree 0
        else muVec mockOps tieTree 1,
       if tieTree.elPt 0 < 0 then muVec mockOps tieTree 1
        else elVec mockOps tieTree 0,
       emuSumPt mockOps tieTree 0 1⟩ :=
  (strict_less_skips_ties_update mockOps tieTree).1.2 0 1 s55ex
    (by norm_num [tieTree])
    (by norm_num [SelectMu, tieTree])
    (by norm_num [mockOps, elVec, muVec, tieTree, massEl, massMu])
    (by norm_num [emuSumPt, mockOps, elVec, muVec, tieTree, s55ex,
      massEl, massMu])

/-- Counterexample to claim C1 as stated: on `tieTree` both e-mu pairs
(el 0, mu 0) and (el 0, mu 1) are valid with identical summed pt 55, yet
after the full `SelectDilepEMu` scan the plus output slot holds the
SECOND muon's four-vector, not the first's: the tied later pair was not
skipped, and the first-enumerated pair was not retained. -/
theorem tie_retains_later_pair_counterexample :
    ValidEMuPair mockOps tieTree 0 0 ∧ ValidEMuPair mockOps tieTree 0 1 ∧
    emuSumPt mockOps tieTree 0 0 = emuSumPt mockOps tieTree 0 1 ∧
    (SelectDilepEMu mockOps tieTree s0ex).vecLepP = muVec mockOps tieTree 1 ∧
    muVec mockOps tieTree 1 ≠ muVec mockOps tieTree 0 := by
  refine ⟨⟨?_, ?_, ?_, ?_, ?_, ?_⟩, ⟨?_, ?_, ?_, ?_, ?_, ?_⟩, ?_, ?_, ?_⟩
  · norm_num [tieTree]
  · norm_num [tieTree]
  · norm_num [SelectEl, tieTree]
  · norm_num [SelectMu, tieTree]
  · norm_num [tieTree]
  · norm_num [mockOps, elVec, muVec, tieTree, massEl, massMu]
  · norm_num [tieTree]
  · norm_num [tieTree]
  · norm_num [SelectEl, tieTree]
  · norm_num [SelectMu, tieTree]
  · norm_num [tieTree]
  · norm_num [mockOps, elVec, muVec, tieTree, massEl, massMu]
  · norm_num [emuSumPt, mockOps, elVec, muVec, tieTree, massEl, massMu]
  · have h1 : List.range tieTree.Nel = [0] := rfl
    have h2 : List.range tieTree.Nmu = [0, 1] := rfl
    simp only [SelectDilepEMu, h1, h2, List.foldl_cons, List.foldl_nil]
    norm_num [emuStep, SelectEl, SelectMu, elVec, muVec, mockOps, tieTree,
      s0ex, massEl, massMu]
  · norm_num [muVec, mockOps, tieTree, massMu, Vec4.mk.injEq]
